import Mathlib

/-!
# waypoint: chart-registry client, packager, repository refresh and image removal

A shallow embedding of `pkg/helm/client.go` and `pkg/docker/client.go`.

Go functions that talk to the outside (HTTP, the file system, the container
daemon, the helm libraries) are embedded as pure functions over an explicit
environment of oracles, and every externally visible action they take is
recorded in a trace that is returned next to the Go result.  A Go result
`error` is `Option Error` (`none` is `nil`); a Go result `(T, error)` is a
pair `T × Option Error`, because Go really returns both components.
-/

namespace Helm

/-! ## Data model -/

/-- The Go constant `chartsAPI`. -/
def chartsAPI : String := "/api/charts"

/-- The fields of `repo.Entry` the client reads. -/
structure Entry where
  Name : String
  URL : String
  Cache : String
deriving DecidableEq, Repr

/-- The type `repo.RepoFile`: the ordered collection of entries. -/
structure RepoFile where
  Repositories : List Entry
deriving DecidableEq, Repr

/-- The error values the helm client can hand back.  The five `Helm...`
constructors are the results of the package's constructors
`NewHelmRepoFileLoadError`, `NewNoHelmReposError`, `NewHelmRepoNotFoundError`,
`NewHelmDeleteError` and `NewHelmUploadError`; `Errorf` is a `fmt.Errorf`
value built by the client itself; `External` is an error value produced by a
collaborator (HTTP transport, file system, helm library) and passed on
unchanged. -/
inductive Error where
  | HelmRepoFileLoadError (msg : String)
  | NoHelmReposError
  | HelmRepoNotFoundError (name : String)
  | HelmDeleteError (content : String)
  | HelmUploadError (content : String)
  | Errorf (msg : String)
  | External (msg : String)
deriving DecidableEq, Repr

/-- An HTTP request issued through the `requests` package. -/
inductive Request where
  | Get (url : String)
  | Post (url : String) (body : List UInt8)
  | Delete (url : String)
deriving DecidableEq, Repr

/-- The fields of `requests.Response` the client reads: `Code` and `Content()`. -/
structure Response where
  Code : Int
  Content : String
deriving DecidableEq, Repr

/-- The type `repo.ChartRepository`; `Config` is the entry it was built from. -/
structure ChartRepository where
  Config : Entry
deriving DecidableEq, Repr

/-- The results of the methods of `helmpath.Home` the client calls. -/
structure Home where
  Cache : String
  LocalRepository : String
deriving DecidableEq, Repr

/-- The client with its environment: `Home` is `c.env.Home`;
`LoadRepositoriesFile` is what loading the repositories file at
`c.env.Home.RepositoryFile()` yields; `http` is how the network answers a
request (`Except.error` is a transport-level failure, with its message);
`NewChartRepositoryErr` is the error, if any, with which
`repo.NewChartRepository(entry, getter.All(c.env))` refuses an entry;
`DownloadIndexFile` is the error, if any, of `repo.DownloadIndexFile(cache)`. -/
structure Client where
  Home : Home
  LoadRepositoriesFile : Except String RepoFile
  http : Request → Except String Response
  NewChartRepositoryErr : Entry → Option String
  DownloadIndexFile : ChartRepository → String → Option String

/-! ## Repository-name resolution -/

/-- The Go method `Client.getHelmRepos`. -/
def getHelmRepos (c : Client) : Except Error RepoFile :=
  match c.LoadRepositoriesFile with
  | .error e => .error (.HelmRepoFileLoadError e)
  | .ok f =>
    if f.Repositories.length = 0 then .error .NoHelmReposError
    else .ok f

/-- The loop of `Client.getHelmURL`: the first entry, in order, whose name is
`repoName` decides. -/
def getHelmURL.loop (repoName : String) : List Entry → Except Error String
  | [] => .error (.HelmRepoNotFoundError repoName)
  | entry :: rest =>
    if entry.Name = repoName then .ok entry.URL else getHelmURL.loop repoName rest

/-- The Go method `Client.getHelmURL`. -/
def getHelmURL (c : Client) (repoName : String) : Except Error String :=
  match getHelmRepos c with
  | .error err => .error err
  | .ok f => getHelmURL.loop repoName f.Repositories

/-- The Go method `Client.getHelmDeleteURL`.  The `err` tested by the `if` is
declared by `url, err := ...` in the scope of the `if` statement; the `err`
of the final `return "", err` is the outer variable, which is never assigned
and is still `nil`. -/
def getHelmDeleteURL (c : Client) (app repoName version : String) : String × Option Error :=
  let err : Option Error := none
  match getHelmURL c repoName with
  | .ok url => (url ++ chartsAPI ++ "/" ++ app ++ "/" ++ version, none)
  | .error _ => ("", err)

/-- The Go method `Client.getHelmPostURL`, with the same scoping of `err` as
`getHelmDeleteURL`. -/
def getHelmPostURL (c : Client) (repoName : String) : String × Option Error :=
  let err : Option Error := none
  match getHelmURL c repoName with
  | .ok url => (url ++ chartsAPI, none)
  | .error _ => ("", err)

/-! ## Registry operations -/

/-- The Go method `Client.RemoveChart`, with the requests it issued. -/
def RemoveChart (c : Client) (app repoName version : String) : Option Error × List Request :=
  match getHelmDeleteURL c app repoName version with
  | (_, some err) => (some err, [])
  | (url, none) =>
    match c.http (.Delete url) with
    | .error e => (some (.External e), [.Delete url])
    | .ok resp =>
      if resp.Code ≠ 200 then (some (.HelmDeleteError resp.Content), [.Delete url])
      else (none, [.Delete url])

/-- The Go method `Client.UploadChart`, with the requests it issued. -/
def UploadChart (c : Client) (ch : List UInt8) (repoName : String) : Option Error × List Request :=
  match getHelmPostURL c repoName with
  | (_, some err) => (some err, [])
  | (url, none) =>
    match c.http (.Post url ch) with
    | .error e => (some (.External e), [.Post url ch])
    | .ok resp =>
      if resp.Code ≤ 199 ∨ resp.Code ≥ 300 then (some (.HelmUploadError resp.Content), [.Post url ch])
      else (none, [.Post url ch])

/-- The Go method `Client.HasChart`, with the requests it issued.  The error
component of `getHelmDeleteURL` is overwritten by the next assignment
without being read. -/
def HasChart (c : Client) (app repoName version : String) : Bool × List Request :=
  let (url, _) := getHelmDeleteURL c app repoName version
  match c.http (.Get url) with
  | .error _ => (false, [.Get url])
  | .ok resp => (decide (resp.Code = 200), [.Get url])

/-! ## Repository refresh -/

/-- An action of the refresh path visible outside the client: an attempt to
download a repository's index into a cache directory, and a line printed to
standard output. -/
inductive Effect where
  | DownloadIndexFile (repo : ChartRepository) (cache : String)
  | Println (msg : String)
deriving DecidableEq, Repr

/-- The library call `repo.NewChartRepository(entry, getter.All(c.env))`: it
either refuses the entry or returns a repository whose `Config` is that entry. -/
def NewChartRepository (c : Client) (entry : Entry) : Except Error ChartRepository :=
  match c.NewChartRepositoryErr entry with
  | some m => .error (.External m)
  | none => .ok { Config := entry }

/-- The loop of `Client.getRepo`. -/
def getRepo.loop (c : Client) (name : String) : List Entry → Except Error ChartRepository
  | [] => .error (.HelmRepoNotFoundError name)
  | re :: rest =>
    if re.Name = name then NewChartRepository c re else getRepo.loop c name rest

/-- The Go method `Client.getRepo`. -/
def getRepo (c : Client) (name : String) : Except Error ChartRepository :=
  match getHelmRepos c with
  | .error err => .error err
  | .ok f => getRepo.loop c name f.Repositories

/-- The Go method `Client.updateRepo`; it has no result, only effects. -/
def updateRepo (c : Client) (repo : ChartRepository) (home : Home) : List Effect :=
  if repo.Config.Name = "local" then []
  else
    match c.DownloadIndexFile repo home.Cache with
    | some m => [.DownloadIndexFile repo home.Cache, .Println m]
    | none => [.DownloadIndexFile repo home.Cache]

/-- The Go method `Client.updateRepos`.  It starts one goroutine per repository
and waits for all of them; the goroutines share no state, so each one's
effects are those of `updateRepo` on its repository.  The trace lists them in
the order the goroutines were started; the order in which they really
interleave is not fixed by the program, and the statements below only count
effects. -/
def updateRepos (c : Client) : List ChartRepository → Home → List Effect
  | [], _ => []
  | re :: rest, home => updateRepo c re home ++ updateRepos c rest home

/-- The Go method `Client.UpdateRepo`. -/
def UpdateRepo (c : Client) (repoName : String) : Option Error × List Effect :=
  match getRepo c repoName with
  | .error err => (some err, [])
  | .ok entry => (none, updateRepo c entry c.Home)

/-- The loop of `Client.UpdateRepos`: `repos` is the slice built so far. -/
def UpdateRepos.loop (c : Client) : List Entry → List ChartRepository →
    Except Error (List ChartRepository)
  | [], repos => .ok repos
  | entry :: rest, repos =>
    match NewChartRepository c entry with
    | .error err => .error err
    | .ok r => UpdateRepos.loop c rest (repos ++ [r])

/-- The Go method `Client.UpdateRepos`. -/
def UpdateRepos (c : Client) : Option Error × List Effect :=
  match getHelmRepos c with
  | .ok f =>
    match UpdateRepos.loop c f.Repositories [] with
    | .error err => (some err, [])
    | .ok repos => (none, updateRepos c repos c.Home)
  | .error err => (some err, [])

/-- The repositories whose index download a trace attempted, in trace order. -/
def downloads : List Effect → List ChartRepository
  | [] => []
  | .DownloadIndexFile r _ :: rest => r :: downloads rest
  | .Println _ :: rest => downloads rest

/-! ## Packaging -/

/-- The Go function `filepath.Base` for the separator `/`. -/
def Base (path : String) : String :=
  if path = "" then "."
  else
    let stripped := path.toList.reverse.dropWhile (fun ch => ch = '/')
    let last := stripped.takeWhile (fun ch => ch ≠ '/')
    if last = [] then "/" else String.mk last.reverse

/-- The type `chart.Metadata`, the fields the client uses. -/
structure Metadata where
  Name : String
  Version : String
deriving DecidableEq, Repr

/-- The type `chart.Chart`. -/
structure Chart where
  Metadata : Metadata
deriving DecidableEq, Repr

/-- The type `chartutil.Requirements`. -/
structure Requirements where
  Dependencies : List String
deriving DecidableEq, Repr

/-- What `chartutil.LoadRequirements` returns: requirements, the sentinel
`chartutil.ErrRequirementsNotFound`, or another error. -/
inductive LoadRequirementsResult where
  | ok (reqs : Requirements)
  | ErrRequirementsNotFound
  | err (msg : String)
deriving DecidableEq, Repr

/-- The collaborators of `Client.Package`. -/
structure Packager where
  Home : Home
  LoadDir : String → Except String Chart
  LoadRequirements : Chart → LoadRequirementsResult
  CheckDependencies : Chart → Requirements → Option String
  Getwd : Except String String
  Save : Chart → String → Except String String
  AddChartToLocalRepo : Chart → String → Option String

/-- A side effect of packaging: an attempt to write the archive of a chart
into a directory, and an attempt to register a chart in the local repository. -/
inductive PackageEffect where
  | Save (ch : Chart) (dest : String)
  | AddChartToLocalRepo (ch : Chart) (lr : String)
deriving DecidableEq, Repr

/-- The text of the error `Client.Package` returns when the directory name and
the chart name differ. -/
def mismatchMessage (dir name : String) : String :=
  "directory name (" ++ dir ++ ") and Chart.yaml name (" ++ name ++ ") must match"

/-- The dependency check of `Client.Package`: the error it returns, if any. -/
def Package.checkRequirements (p : Packager) (ch : Chart) : Option Error :=
  match p.LoadRequirements ch with
  | .ok reqs =>
    match p.CheckDependencies ch reqs with
    | some m => some (.External m)
    | none => none
  | .ErrRequirementsNotFound => none
  | .err m => some (.External m)

/-- The Go method `Client.Package`, with the effects it attempted. -/
def Package (p : Packager) (src version dest : String) (saveLocal : Bool) :
    Option Error × List PackageEffect :=
  match p.LoadDir src with
  | .error m => (some (.External m), [])
  | .ok loaded =>
    let ch : Chart := { loaded with Metadata := { loaded.Metadata with Version := version } }
    if Base src ≠ ch.Metadata.Name then
      (some (.Errorf (mismatchMessage (Base src) ch.Metadata.Name)), [])
    else
      match Package.checkRequirements p ch with
      | some err => (some err, [])
      | none =>
        match (if dest = "." then p.Getwd else .ok dest) with
        | .error m => (some (.External m), [])
        | .ok dest =>
          match p.Save ch dest with
          | .error m => (some (.Errorf ("failed to save: " ++ m)), [.Save ch dest])
          | .ok _ =>
            if saveLocal then
              let lr := p.Home.LocalRepository
              match p.AddChartToLocalRepo ch lr with
              | some m => (some (.External m), [.Save ch dest, .AddChartToLocalRepo ch lr])
              | none => (none, [.Save ch dest, .AddChartToLocalRepo ch lr])
            else (none, [.Save ch dest])

/-! ## Index -/

/-- Modelled from the spec: the library type of a chart version number is not
part of the sources; a version is "a semantic triple (major, minor, patch)". -/
structure Version where
  major : Nat
  minor : Nat
  patch : Nat
deriving DecidableEq, Repr

/-- Modelled from the spec: the order of versions of the library's
`SortEntries`, missing from the sources; the order of semantic triples, the
major number first. -/
def Version.le (v w : Version) : Bool :=
  decide (v.major < w.major) ||
    (decide (v.major = w.major) &&
      (decide (v.minor < w.minor) || (decide (v.minor = w.minor) && decide (v.patch ≤ w.patch))))

/-- Modelled from the spec: the library type `repo.ChartVersion` is missing
from the sources; a "chart version metadata entry", with its chart name, its
version and the digest of its archive. -/
structure ChartVersion where
  Name : String
  Version : Version
  Digest : String
deriving DecidableEq, Repr

/-- Modelled from the spec: the library type `repo.IndexFile` is missing from
the sources; a "mapping from chart name to a list of chart version metadata
entries".  A name the index does not know is mapped to the empty list. -/
structure IndexFile where
  Entries : String → List ChartVersion

/-- Modelled from the spec: the library function `repo.NewIndexFile`, missing
from the sources: the index "created empty". -/
def NewIndexFile : IndexFile := { Entries := fun _ => [] }

/-- Modelled from the spec: "the union of version entries" of two lists: the
entries of the first list, then the entries of the second that the first does
not have. -/
def unionEntries (a b : List ChartVersion) : List ChartVersion :=
  a ++ b.filter (fun e => decide (e ∉ a))

/-- Modelled from the spec: the library method `IndexFile.Merge`, missing from
the sources: "a chart name present in both keeps the union of version
entries". -/
def IndexFile.Merge (i f : IndexFile) : IndexFile :=
  { Entries := fun name => unionEntries (i.Entries name) (f.Entries name) }

/-- Modelled from the spec: the order "by version (descending)": the entry
`x` may stand before the entry `y`. -/
def newerFirst (x y : ChartVersion) : Prop := y.Version.le x.Version = true

instance newerFirst.decidable : DecidableRel newerFirst :=
  fun x y => inferInstanceAs (Decidable (y.Version.le x.Version = true))

/-- Modelled from the spec: the library method `IndexFile.SortEntries`, missing
from the sources: "entries are then sorted by version (descending) within each
chart name". -/
def IndexFile.SortEntries (i : IndexFile) : IndexFile :=
  { Entries := fun name => (i.Entries name).insertionSort newerFirst }

/-- What a path holds for the index code: nothing, an index file, or something
`repo.LoadIndexFile` fails on with a message. -/
inductive FileState where
  | absent
  | index (i : IndexFile)
  | unreadable (msg : String)

/-- The file system, as far as index files go. -/
abbrev Files := String → FileState

/-- The collaborators of `Client.index`: `repo.IndexDirectory`, `filepath.Abs`,
`filepath.Join`, and the error, if any, with which writing to a path fails. -/
structure Indexer where
  IndexDirectory : String → String → Except String IndexFile
  Abs : String → Except String String
  Join : String → String → String
  WriteFileErr : String → Option String

/-- The library method `IndexFile.WriteFile(path, 0644)` on the file system. -/
def WriteFile (x : Indexer) (fs : Files) (i : IndexFile) (path : String) :
    Option String × Files :=
  match x.WriteFileErr path with
  | some m => (some m, fs)
  | none => (none, fun q => if q = path then .index i else fs q)

/-- The branch `if mergeTo != ""` of `Client.index`: the index to go on with
and the file system, or the error returned. -/
def index.mergeStep (x : Indexer) (fs : Files) (i : IndexFile) (mergeTo : String) :
    Except Error IndexFile × Files :=
  if mergeTo ≠ "" then
    match fs mergeTo with
    | .absent =>
      let i2 := NewIndexFile
      match WriteFile x fs i2 mergeTo with
      | (some m, fs1) => (.error (.External m), fs1)
      | (none, fs1) => (.ok (i.Merge i2), fs1)
    | .index i2 => (.ok (i.Merge i2), fs)
    | .unreadable m => (.error (.Errorf ("merge failed: " ++ m)), fs)
  else (.ok i, fs)

/-- The Go method `Client.index`, on the file system. -/
def index (x : Indexer) (fs : Files) (dir url mergeTo : String) : Option Error × Files :=
  let out := x.Join dir "index.yaml"
  match x.IndexDirectory dir url with
  | .error m => (some (.External m), fs)
  | .ok i =>
    match index.mergeStep x fs i mergeTo with
    | (.error err, fs1) => (some err, fs1)
    | (.ok i, fs1) =>
      match WriteFile x fs1 i.SortEntries out with
      | (some m, fs2) => (some (.External m), fs2)
      | (none, fs2) => (none, fs2)

/-- The Go method `Client.UpdateIndex`. -/
def UpdateIndex (x : Indexer) (fs : Files) (chartSrc baseURL : String) : Option Error × Files :=
  match x.Abs chartSrc with
  | .error m => (some (.External m), fs)
  | .ok path => index x fs path baseURL ""

end Helm

namespace Docker

/-- The fields of `types.ImageSummary` the client reads. -/
structure ImageSummary where
  ID : String
  RepoTags : List String
deriving DecidableEq, Repr

/-- The type `types.ImageListOptions`: its filters, as key and value pairs. -/
structure ImageListOptions where
  Filters : List (String × String)
deriving DecidableEq, Repr

/-- An error value of the docker client: `New` is built by `errors.New` in
the client itself, `External` comes from the daemon and is passed on. -/
inductive Error where
  | New (msg : String)
  | External (msg : String)
deriving DecidableEq, Repr

/-- A request to the container daemon. -/
inductive Call where
  | ImageList (opts : ImageListOptions)
  | ImageRemove (id : String)
deriving DecidableEq, Repr

/-- The container daemon behind `c.dkr`: its answer to a list request and to
a remove request (the identifiers of what it deleted). -/
structure Client where
  ImageList : ImageListOptions → Except String (List ImageSummary)
  ImageRemove : String → Except String (List String)

/-- The Go method `Client.getDockerListOpts`. -/
def getDockerListOpts (image : String) : ImageListOptions :=
  { Filters := [("reference", image)] }

/-- The text of the error `RemoveImage` returns for a list of `n` images. -/
def imagesFound (n : Nat) : String := toString n ++ " images found; skipping"

/-- The Go method `Client.RemoveImage`, with the requests it made. -/
def RemoveImage (c : Client) (taggedImageName : String) : Option Error × List Call :=
  let listOpts := getDockerListOpts taggedImageName
  match c.ImageList listOpts with
  | .error e => (some (.External e), [.ImageList listOpts])
  | .ok list =>
    if h : list.length = 1 then
      let img := list.get ⟨0, by omega⟩
      match c.ImageRemove img.ID with
      | .error e => (some (.External e), [.ImageList listOpts, .ImageRemove img.ID])
      | .ok _ => (none, [.ImageList listOpts, .ImageRemove img.ID])
    else (some (.New (imagesFound list.length)), [.ImageList listOpts])

end Docker

/-! # Concrete environments -/

namespace Helm

/-- A remote repository entry. -/
def stable : Entry :=
  { Name := "stable", URL := "https://charts.example.com", Cache := "stable-index.yaml" }

/-- The entry of the local repository. -/
def localEntry : Entry :=
  { Name := "local", URL := "http://127.0.0.1:8879/charts", Cache := "local-index.yaml" }

/-- An entry whose URL has a scheme no getter handles. -/
def ftpEntry : Entry :=
  { Name := "mirror", URL := "ftp://mirror.example.com", Cache := "mirror-index.yaml" }

/-- An entry named `local` whose URL has a scheme no getter handles. -/
def localFtp : Entry :=
  { Name := "local", URL := "ftp://127.0.0.1/charts", Cache := "local-index.yaml" }

/-- A second remote repository entry. -/
def incubator : Entry :=
  { Name := "incubator", URL := "https://incubator.example.com", Cache := "incubator-index.yaml" }

/-- A helm home. -/
def demoHome : Home :=
  { Cache := "/home/u/.helm/repository/cache", LocalRepository := "/home/u/.helm/repository/local" }

/-- A network on which nothing can be reached: every request fails in transport. -/
def unreachable : Request → Except String Response :=
  fun _ => .error "unsupported protocol scheme"

/-- A network whose registry answers every request with the given status code
and the body `reply`. -/
def answering (code : Int) : Request → Except String Response :=
  fun _ => .ok { Code := code, Content := "reply" }

/-- A client over the given repositories file and network; the entries in
`refused` yield no repository, and every download fails if `down` is set. -/
def demoClient (entries refused : List Entry) (http : Request → Except String Response)
    (down : Bool) : Client :=
  { Home := demoHome
    LoadRepositoriesFile := .ok { Repositories := entries }
    http := http
    NewChartRepositoryErr := fun e =>
      if e ∈ refused then some "Could not find protocol handler for: ftp" else none
    DownloadIndexFile := fun _ _ => if down then some "connection refused" else none }

/-- A client over the repositories `[stable, localEntry, incubator]`, all of
which yield a repository; the registry of `stable` cannot be reached, so its
index download fails, and every other download succeeds. -/
def mixedClient : Client :=
  { Home := demoHome
    LoadRepositoriesFile := .ok { Repositories := [stable, localEntry, incubator] }
    http := unreachable
    NewChartRepositoryErr := fun _ => none
    DownloadIndexFile := fun r _ =>
      if r.Config = stable then some "connection refused" else none }

/-- A packager whose source directories all hold the chart `foo`. -/
def demoPackager : Packager :=
  { Home := demoHome
    LoadDir := fun _ => .ok { Metadata := { Name := "foo", Version := "0.1.0" } }
    LoadRequirements := fun _ => .ErrRequirementsNotFound
    CheckDependencies := fun _ _ => none
    Getwd := .ok "/work"
    Save := fun ch dest => .ok (dest ++ "/" ++ ch.Metadata.Name ++ ".tgz")
    AddChartToLocalRepo := fun _ _ => none }

end Helm

namespace Helm

/-- Release 1.3.0 of the chart `foo`. -/
def foo130 : ChartVersion :=
  { Name := "foo", Version := { major := 1, minor := 3, patch := 0 }, Digest := "d130" }

/-- Release 1.2.3 of the chart `foo`. -/
def foo123 : ChartVersion :=
  { Name := "foo", Version := { major := 1, minor := 2, patch := 3 }, Digest := "d123" }

/-- Release 1.0.0 of the chart `foo`. -/
def foo100 : ChartVersion :=
  { Name := "foo", Version := { major := 1, minor := 0, patch := 0 }, Digest := "d100" }

/-- A freshly generated index: the chart `foo` in two versions, oldest first. -/
def freshIndex : IndexFile :=
  { Entries := fun name => if name = "foo" then [foo123, foo130] else [] }

/-- An existing index: the chart `foo` in two versions, one of them also in
`freshIndex`. -/
def existingIndex : IndexFile :=
  { Entries := fun name => if name = "foo" then [foo100, foo123] else [] }

/-- An indexer that finds `freshIndex` in every directory and can write
everywhere. -/
def demoIndexer : Indexer :=
  { IndexDirectory := fun _ _ => .ok freshIndex
    Abs := fun path => .ok path
    Join := fun dir file => dir ++ "/" ++ file
    WriteFileErr := fun _ => none }

/-- A file system that holds `existingIndex` at `/srv/index.yaml` and nothing
else. -/
def demoFiles : Files :=
  fun q => if q = "/srv/index.yaml" then .index existingIndex else .absent

end Helm

namespace Docker

/-- Two images. -/
def imageA : ImageSummary := { ID := "sha256:aaaa", RepoTags := ["foo:1.3.0"] }

/-- The second image. -/
def imageB : ImageSummary := { ID := "sha256:bbbb", RepoTags := ["foo:1.3.0"] }

/-- A daemon that answers every list request with `found` and removes what
it is asked to remove. -/
def demoDaemon (found : List ImageSummary) : Client :=
  { ImageList := fun _ => .ok found
    ImageRemove := fun id => .ok [id] }

end Docker

/-! # Theorems -/

namespace Helm

/-! ## Repository-name resolution -/

theorem getHelmRepos_of_loaded {c : Client} {f : RepoFile}
    (hf : c.LoadRepositoriesFile = .ok f) (hne : f.Repositories ≠ []) :
    getHelmRepos c = .ok f := by
  have hlen : f.Repositories.length ≠ 0 := fun h => hne (List.length_eq_zero.mp h)
  simp [getHelmRepos, hf, hlen]

theorem getHelmRepos_of_empty {c : Client} {f : RepoFile}
    (hf : c.LoadRepositoriesFile = .ok f) (he : f.Repositories = []) :
    getHelmRepos c = .error .NoHelmReposError := by
  simp [getHelmRepos, hf, he]

theorem getHelmURL_loop_none (n : String) :
    ∀ l : List Entry, (∀ e ∈ l, e.Name ≠ n) →
      getHelmURL.loop n l = .error (.HelmRepoNotFoundError n)
  | [], _ => rfl
  | e :: rest, h => by
    have h1 : e.Name ≠ n := h e (List.mem_cons_self _ _)
    have h2 : ∀ x ∈ rest, x.Name ≠ n := fun x hx => h x (List.mem_cons_of_mem _ hx)
    simp [getHelmURL.loop, h1, getHelmURL_loop_none n rest h2]

theorem getHelmURL_loop_first (n : String) (e : Entry) (post : List Entry) (hn : e.Name = n) :
    ∀ pre : List Entry, (∀ x ∈ pre, x.Name ≠ n) →
      getHelmURL.loop n (pre ++ e :: post) = .ok e.URL
  | [], _ => by simp [getHelmURL.loop, hn]
  | p :: pre, h => by
    have h1 : p.Name ≠ n := h p (List.mem_cons_self _ _)
    have h2 : ∀ x ∈ pre, x.Name ≠ n := fun x hx => h x (List.mem_cons_of_mem _ hx)
    simp [getHelmURL.loop, h1, getHelmURL_loop_first n e post hn pre h2]

/-- Claim C2.  For a repositories file `f` that loaded and every name `n`:
if `f` has no entries, resolution fails with `NoHelmReposError`; if `f` has
entries and none is named `n`, it fails with `HelmRepoNotFoundError`, which is
a different error; and if `f` has an entry named `n`, it returns the URL of
the first such entry in file order. -/
theorem getHelmURL_resolution (c : Client) (f : RepoFile) (n : String)
    (hf : c.LoadRepositoriesFile = .ok f) :
    (f.Repositories = [] → getHelmURL c n = .error .NoHelmReposError) ∧
    (f.Repositories ≠ [] → (∀ e ∈ f.Repositories, e.Name ≠ n) →
      getHelmURL c n = .error (.HelmRepoNotFoundError n)) ∧
    (∀ pre e post, f.Repositories = pre ++ e :: post → (∀ x ∈ pre, x.Name ≠ n) →
      e.Name = n → getHelmURL c n = .ok e.URL) ∧
    Error.NoHelmReposError ≠ Error.HelmRepoNotFoundError n := by
  refine ⟨?_, ?_, ?_, ?_⟩
  · intro he
    simp [getHelmURL, getHelmRepos_of_empty hf he]
  · intro hne hall
    simp [getHelmURL, getHelmRepos_of_loaded hf hne, getHelmURL_loop_none n _ hall]
  · intro pre e post hsplit hpre hn
    have hne : f.Repositories ≠ [] := by simp [hsplit]
    simp only [getHelmURL, getHelmRepos_of_loaded hf hne]
    rw [hsplit]
    exact getHelmURL_loop_first n e post hn pre hpre
  · intro h
    cases h

end Helm

namespace Helm

/-! ## Registry operations -/

/-- Claim C1, evaluated.  With the repositories file `[stable]` and the name
`missing`, resolution fails with `HelmRepoNotFoundError`, yet `UploadChart` and
`RemoveChart` issue a request to the empty URL and return that request's
transport error; with an empty repositories file resolution fails with
`NoHelmReposError` and the same happens. -/
theorem registry_calls_unresolved :
    getHelmURL (demoClient [stable] [] unreachable false) "missing"
      = .error (.HelmRepoNotFoundError "missing") ∧
    UploadChart (demoClient [stable] [] unreachable false) [1, 2] "missing"
      = (some (.External "unsupported protocol scheme"), [.Post "" [1, 2]]) ∧
    RemoveChart (demoClient [stable] [] unreachable false) "app" "missing" "1.0.0"
      = (some (.External "unsupported protocol scheme"), [.Delete ""]) ∧
    getHelmURL (demoClient [] [] unreachable false) "stable" = .error .NoHelmReposError ∧
    UploadChart (demoClient [] [] unreachable false) [1, 2] "stable"
      = (some (.External "unsupported protocol scheme"), [.Post "" [1, 2]]) ∧
    RemoveChart (demoClient [] [] unreachable false) "app" "stable" "1.0.0"
      = (some (.External "unsupported protocol scheme"), [.Delete ""]) :=
  ⟨rfl, rfl, rfl, rfl, rfl, rfl⟩

end Helm

namespace Helm

/-- Witness of claim C2: on the repositories file `[stable, localEntry]` the
name `local` resolves to the URL of the second entry, the first one named so. -/
theorem getHelmURL_resolution_witness :
    getHelmURL (demoClient [stable, localEntry] [] unreachable false) "local"
      = .ok "http://127.0.0.1:8879/charts" :=
  (getHelmURL_resolution (demoClient [stable, localEntry] [] unreachable false)
    { Repositories := [stable, localEntry] } "local" rfl).2.2.1
    [stable] localEntry [] rfl (by decide) rfl

theorem getHelmDeleteURL_fst (c : Client) (app repoName version : String) :
    (getHelmDeleteURL c app repoName version).1 =
      match getHelmURL c repoName with
      | .ok u => u ++ "/api/charts/" ++ app ++ "/" ++ version
      | .error _ => "" := by
  unfold getHelmDeleteURL
  cases getHelmURL c repoName with
  | error e => rfl
  | ok u =>
    have h : chartsAPI ++ "/" = "/api/charts/" := by decide
    simp only [String.append_assoc]
    rw [← String.append_assoc chartsAPI, h]

theorem HasChart_eq (c : Client) (app repoName version : String) :
    HasChart c app repoName version =
      match c.http (.Get (getHelmDeleteURL c app repoName version).1) with
      | .error _ => (false, [.Get (getHelmDeleteURL c app repoName version).1])
      | .ok resp =>
        (decide (resp.Code = 200), [.Get (getHelmDeleteURL c app repoName version).1]) := by
  unfold HasChart
  rfl

/-- Claim C3.  `HasChart` is a function into the booleans, so it returns for
every input and has no error result.  It issues exactly one GET, to
`<url>/api/charts/<app>/<version>` when `repoName` resolves to `url` (and to
the empty URL when it does not resolve); it returns `true` exactly when that
GET completed with status 200, and `false` when the GET failed in transport
or completed with another status. -/
theorem HasChart_probe (c : Client) (app repoName version : String) :
    (HasChart c app repoName version).2 =
      [.Get (match getHelmURL c repoName with
        | .ok u => u ++ "/api/charts/" ++ app ++ "/" ++ version
        | .error _ => "")] ∧
    ((HasChart c app repoName version).1 = true ↔
      ∃ resp, c.http (.Get (match getHelmURL c repoName with
        | .ok u => u ++ "/api/charts/" ++ app ++ "/" ++ version
        | .error _ => "")) = .ok resp ∧ resp.Code = 200) ∧
    (∀ e, c.http (.Get (match getHelmURL c repoName with
        | .ok u => u ++ "/api/charts/" ++ app ++ "/" ++ version
        | .error _ => "")) = .error e → (HasChart c app repoName version).1 = false) ∧
    (∀ resp, c.http (.Get (match getHelmURL c repoName with
        | .ok u => u ++ "/api/charts/" ++ app ++ "/" ++ version
        | .error _ => "")) = .ok resp → resp.Code ≠ 200 →
      (HasChart c app repoName version).1 = false) := by
  rw [HasChart_eq, ← getHelmDeleteURL_fst]
  generalize (getHelmDeleteURL c app repoName version).1 = target
  cases hr : c.http (.Get target) with
  | error e => simp
  | ok resp =>
    refine ⟨rfl, ?_, ?_, ?_⟩
    · simp
    · intro e he
      cases he
    · intro r hr2 hcode
      cases hr2
      simp [hcode]

/-- Witness of claim C3: on an unreachable network the probe of a configured
repository answers `false` after one GET of the chart's URL. -/
theorem HasChart_probe_witness :
    HasChart (demoClient [stable] [] unreachable false) "app" "stable" "1.0.0"
      = (false, [.Get "https://charts.example.com/api/charts/app/1.0.0"]) :=
  Prod.ext
    ((HasChart_probe (demoClient [stable] [] unreachable false) "app" "stable" "1.0.0").2.2.1
      "unsupported protocol scheme" rfl)
    ((HasChart_probe (demoClient [stable] [] unreachable false) "app" "stable" "1.0.0").1.trans rfl)

/-- Claim C4.  When `repoName` resolves to the base URL `u`, `UploadChart`
issues exactly one request, the POST of the archive bytes to `u` followed by
`/api/charts`; when that POST completes with status code `c`, the upload
succeeds exactly when `200 ≤ c < 300`, and for every other `c` it fails with
`HelmUploadError` carrying the body of the response. -/
theorem UploadChart_status (c : Client) (ch : List UInt8) (repoName u : String)
    (hu : getHelmURL c repoName = .ok u) :
    (UploadChart c ch repoName).2 = [.Post (u ++ "/api/charts") ch] ∧
    ∀ resp, c.http (.Post (u ++ "/api/charts") ch) = .ok resp →
      ((UploadChart c ch repoName).1 = none ↔ 200 ≤ resp.Code ∧ resp.Code < 300) ∧
      (¬ (200 ≤ resp.Code ∧ resp.Code < 300) →
        (UploadChart c ch repoName).1 = some (.HelmUploadError resp.Content)) := by
  have hpost : getHelmPostURL c repoName = (u ++ "/api/charts", none) := by
    simp [getHelmPostURL, hu, chartsAPI]
  have heq : UploadChart c ch repoName =
      match c.http (.Post (u ++ "/api/charts") ch) with
      | .error e => (some (.External e), [.Post (u ++ "/api/charts") ch])
      | .ok resp =>
        if resp.Code ≤ 199 ∨ resp.Code ≥ 300 then
          (some (.HelmUploadError resp.Content), [.Post (u ++ "/api/charts") ch])
        else (none, [.Post (u ++ "/api/charts") ch]) := by
    simp only [UploadChart, hpost]
  rw [heq]
  cases hr : c.http (.Post (u ++ "/api/charts") ch) with
  | error e => simp
  | ok resp =>
    by_cases hc : resp.Code ≤ 199 ∨ resp.Code ≥ 300
    · refine ⟨by simp [hc], ?_⟩
      intro r hr2
      cases hr2
      have hout : ¬ (200 ≤ resp.Code ∧ resp.Code < 300) := by omega
      simp [hc, hout]
    · refine ⟨by simp [hc], ?_⟩
      intro r hr2
      cases hr2
      have hin : 200 ≤ resp.Code ∧ resp.Code < 300 := by omega
      simp [hc, hin]

/-- Witness of claim C4: a registry answering 201 accepts the upload, after
one POST to the resolved URL. -/
theorem UploadChart_status_witness :
    (UploadChart (demoClient [stable] [] (answering 201) false) [1, 2] "stable").2
      = [.Post "https://charts.example.com/api/charts" [1, 2]] ∧
    (UploadChart (demoClient [stable] [] (answering 201) false) [1, 2] "stable").1 = none :=
  ⟨(UploadChart_status (demoClient [stable] [] (answering 201) false) [1, 2] "stable"
      "https://charts.example.com" rfl).1,
    (((UploadChart_status (demoClient [stable] [] (answering 201) false) [1, 2] "stable"
      "https://charts.example.com" rfl).2 { Code := 201, Content := "reply" } rfl).1).2
      (by decide)⟩

end Helm

namespace Docker

/-! ## Image removal -/

/-- Claim C5.  When the lookup of a tagged image name succeeds with the list
`L`: if the length of `L` is not 1, `RemoveImage` fails with the error
`<length> images found; skipping` and its only request is the lookup, so no
image is removed; if `L` is the single image `img`, its requests are the lookup
and the removal of `img.ID`, and it returns the result of that removal. -/
theorem RemoveImage_unique (c : Client) (taggedImageName : String) (L : List ImageSummary)
    (hL : c.ImageList (getDockerListOpts taggedImageName) = .ok L) :
    (L.length ≠ 1 →
      RemoveImage c taggedImageName =
        (some (.New (imagesFound L.length)), [.ImageList (getDockerListOpts taggedImageName)]) ∧
      ∀ id, Call.ImageRemove id ∉ (RemoveImage c taggedImageName).2) ∧
    (∀ img, L = [img] →
      (RemoveImage c taggedImageName).2 =
        [.ImageList (getDockerListOpts taggedImageName), .ImageRemove img.ID] ∧
      (RemoveImage c taggedImageName).1 =
        match c.ImageRemove img.ID with
        | .error e => some (.External e)
        | .ok _ => none) := by
  refine ⟨?_, ?_⟩
  · intro hlen
    have heq : RemoveImage c taggedImageName =
        (some (.New (imagesFound L.length)),
          [.ImageList (getDockerListOpts taggedImageName)]) := by
      simp only [RemoveImage, hL, dif_neg hlen]
    refine ⟨heq, ?_⟩
    intro id hmem
    rw [heq] at hmem
    simp at hmem
  · intro img himg
    subst himg
    have heq : RemoveImage c taggedImageName =
        match c.ImageRemove img.ID with
        | .error e => (some (.External e),
            [.ImageList (getDockerListOpts taggedImageName), .ImageRemove img.ID])
        | .ok _ => (none,
            [.ImageList (getDockerListOpts taggedImageName), .ImageRemove img.ID]) := by
      simp only [RemoveImage, hL]
      rfl
    rw [heq]
    cases c.ImageRemove img.ID <;> exact ⟨rfl, rfl⟩

/-- Witness of claim C5: with two matches nothing is removed. -/
theorem RemoveImage_unique_witness :
    RemoveImage (demoDaemon [imageA, imageB]) "foo:1.3.0" =
      (some (.New "2 images found; skipping"),
        [.ImageList { Filters := [("reference", "foo:1.3.0")] }]) :=
  ((RemoveImage_unique (demoDaemon [imageA, imageB]) "foo:1.3.0" [imageA, imageB] rfl).1
    (by decide)).1

end Docker

namespace Helm

/-! ## Packaging -/

/-- Claim C6.  When the chart definition of the source directory loads and the
base name of the directory differs from the chart's declared name, `Package`
fails with the mismatch error, for every version, destination and `saveLocal`,
and has attempted neither to save an archive nor to register the chart in the
local repository. -/
theorem Package_mismatch (p : Packager) (src version dest : String) (saveLocal : Bool)
    (loaded : Chart) (hload : p.LoadDir src = .ok loaded)
    (hname : Base src ≠ loaded.Metadata.Name) :
    Package p src version dest saveLocal =
      (some (.Errorf (mismatchMessage (Base src) loaded.Metadata.Name)), []) := by
  simp only [Package, hload]
  rw [if_pos hname]

/-- Witness of claim C6: packaging the directory `charts/bar/`, which holds the
chart `foo`. -/
theorem Package_mismatch_witness :
    Package demoPackager "charts/bar/" "1.3.0" "." true =
      (some (.Errorf "directory name (bar) and Chart.yaml name (foo) must match"), []) :=
  Package_mismatch demoPackager "charts/bar/" "1.3.0" "." true
    { Metadata := { Name := "foo", Version := "0.1.0" } } rfl (by decide)

end Helm

namespace Helm

/-! ## Repository refresh -/

theorem downloads_append (a b : List Effect) :
    downloads (a ++ b) = downloads a ++ downloads b := by
  induction a with
  | nil => rfl
  | cons x xs ih =>
    cases x with
    | DownloadIndexFile r cache => simp [downloads, ih]
    | Println m => simp [downloads, ih]

theorem downloads_updateRepo (c : Client) (r : ChartRepository) (home : Home) :
    downloads (updateRepo c r home) = if r.Config.Name = "local" then [] else [r] := by
  unfold updateRepo
  by_cases h : r.Config.Name = "local"
  · simp [h, downloads]
  · simp only [if_neg h]
    cases c.DownloadIndexFile r home.Cache <;> rfl

theorem downloads_updateRepos (c : Client) (home : Home) :
    ∀ repos : List ChartRepository,
      downloads (updateRepos c repos home) =
        repos.filter (fun r => decide (r.Config.Name ≠ "local"))
  | [] => rfl
  | r :: rest => by
    rw [updateRepos, downloads_append, downloads_updateRepo, downloads_updateRepos c home rest]
    by_cases h : r.Config.Name = "local"
    · simp [h]
    · simp [h]

theorem UpdateRepos_loop_ok (c : Client) :
    ∀ (l : List Entry) (acc : List ChartRepository),
      (∀ e ∈ l, c.NewChartRepositoryErr e = none) →
      UpdateRepos.loop c l acc = .ok (acc ++ l.map (fun e => { Config := e }))
  | [], acc, _ => by simp [UpdateRepos.loop]
  | e :: rest, acc, h => by
    have h1 : c.NewChartRepositoryErr e = none := h e (List.mem_cons_self _ _)
    have h2 : ∀ x ∈ rest, c.NewChartRepositoryErr x = none :=
      fun x hx => h x (List.mem_cons_of_mem _ hx)
    simp [UpdateRepos.loop, NewChartRepository, h1, UpdateRepos_loop_ok c rest _ h2]

theorem UpdateRepos_loop_config (c : Client) :
    ∀ (l : List Entry) (acc repos : List ChartRepository),
      UpdateRepos.loop c l acc = .ok repos → repos = acc ++ l.map (fun e => { Config := e })
  | [], acc, repos, h => by
    simp only [UpdateRepos.loop, Except.ok.injEq] at h
    simp [h]
  | e :: rest, acc, repos, h => by
    unfold UpdateRepos.loop at h
    cases hn : NewChartRepository c e with
    | error err => simp [hn] at h
    | ok r =>
      have hr : r = { Config := e } := by
        unfold NewChartRepository at hn
        cases he : c.NewChartRepositoryErr e with
        | some m => simp [he] at hn
        | none =>
          simp only [he, Except.ok.injEq] at hn
          exact hn.symm
      simp only [hn] at h
      rw [UpdateRepos_loop_config c rest _ repos h, hr]
      simp

theorem getRepo_loop_find (c : Client) (name : String) :
    ∀ l : List Entry,
      getRepo.loop c name l =
        match l.find? (fun e => decide (e.Name = name)) with
        | none => .error (.HelmRepoNotFoundError name)
        | some e => NewChartRepository c e
  | [] => rfl
  | e :: rest => by
    by_cases h : e.Name = name
    · simp [getRepo.loop, List.find?, h]
    · simp [getRepo.loop, List.find?, h, getRepo_loop_find c name rest]

theorem getRepo_name (c : Client) (name : String) (r : ChartRepository)
    (h : getRepo c name = .ok r) : r.Config.Name = name := by
  unfold getRepo at h
  cases hg : getHelmRepos c with
  | error err => simp [hg] at h
  | ok f =>
    simp only [hg, getRepo_loop_find] at h
    cases hfind : f.Repositories.find? (fun e => decide (e.Name = name)) with
    | none => simp [hfind] at h
    | some e =>
      simp only [hfind] at h
      have hname : e.Name = name := by simpa using List.find?_some hfind
      unfold NewChartRepository at h
      cases he : c.NewChartRepositoryErr e with
      | some m => simp [he] at h
      | none =>
        simp only [he, Except.ok.injEq] at h
        rw [← h]
        exact hname

theorem UpdateRepos_loop_refused (c : Client) (e : Entry) (post : List Entry) (m : String)
    (he : c.NewChartRepositoryErr e = some m) :
    ∀ (pre : List Entry) (acc : List ChartRepository),
      (∀ x ∈ pre, c.NewChartRepositoryErr x = none) →
      UpdateRepos.loop c (pre ++ e :: post) acc = .error (.External m)
  | [], acc, _ => by simp [UpdateRepos.loop, NewChartRepository, he]
  | p :: pre, acc, h => by
    have h1 : c.NewChartRepositoryErr p = none := h p (List.mem_cons_self _ _)
    have h2 : ∀ x ∈ pre, c.NewChartRepositoryErr x = none :=
      fun x hx => h x (List.mem_cons_of_mem _ hx)
    simp [UpdateRepos.loop, NewChartRepository, h1, UpdateRepos_loop_refused c e post m he pre _ h2]

/-- Claim C7, as amended.  For a non-empty repositories file that loaded, and
for every outcome of every download: if all entries yield a repository object,
`UpdateRepos` returns no error, and the index downloads it attempts are exactly
those of the entries not named `local`, one per entry; if the library refuses
an entry, `UpdateRepos` returns the error of the first refused entry and has
no effect at all, so it attempts no download. -/
theorem UpdateRepos_isolation (c : Client) (f : RepoFile)
    (hf : c.LoadRepositoriesFile = .ok f) (hne : f.Repositories ≠ []) :
    ((∀ e ∈ f.Repositories, c.NewChartRepositoryErr e = none) →
      (UpdateRepos c).1 = none ∧
      downloads (UpdateRepos c).2 =
        (f.Repositories.filter (fun e => decide (e.Name ≠ "local"))).map
          (fun e => { Config := e })) ∧
    (∀ pre e post m, f.Repositories = pre ++ e :: post →
      (∀ x ∈ pre, c.NewChartRepositoryErr x = none) →
      c.NewChartRepositoryErr e = some m →
      UpdateRepos c = (some (.External m), [])) := by
  refine ⟨?_, ?_⟩
  · intro hok
    have hrun : UpdateRepos c =
        (none, updateRepos c (f.Repositories.map (fun e => { Config := e })) c.Home) := by
      simp [UpdateRepos, getHelmRepos_of_loaded hf hne, UpdateRepos_loop_ok c _ [] hok]
    rw [hrun]
    refine ⟨rfl, ?_⟩
    simp only [downloads_updateRepos, List.filter_map]
    rfl
  · intro pre e post m hsplit hpre he
    have hloop : UpdateRepos.loop c f.Repositories [] = .error (.External m) := by
      rw [hsplit]
      exact UpdateRepos_loop_refused c e post m he pre [] hpre
    simp [UpdateRepos, getHelmRepos_of_loaded hf hne, hloop]

/-- Witness of claim C7: of the repositories `stable`, `local` and `incubator`,
with the download of `stable` failing, the two remote ones are attempted and no
error is returned; and with `ftpEntry` refused after `stable`, the error of
`ftpEntry` is returned with no effect. -/
theorem UpdateRepos_isolation_witness :
    ((UpdateRepos mixedClient).1 = none ∧
      downloads (UpdateRepos mixedClient).2 =
        [{ Config := stable }, { Config := incubator }]) ∧
    UpdateRepos (demoClient [stable, localEntry, ftpEntry] [ftpEntry] unreachable true) =
      (some (.External "Could not find protocol handler for: ftp"), []) :=
  ⟨(UpdateRepos_isolation mixedClient { Repositories := [stable, localEntry, incubator] }
      rfl (by decide)).1 (fun _ _ => rfl),
    (UpdateRepos_isolation (demoClient [stable, localEntry, ftpEntry] [ftpEntry] unreachable true)
      { Repositories := [stable, localEntry, ftpEntry] } rfl (by decide)).2
      [stable, localEntry] ftpEntry [] "Could not find protocol handler for: ftp" rfl
      (by decide) rfl⟩

/-- The run behind the witness of claim C7, effect by effect: the failed
download of `stable` is printed, `local` is skipped, and `incubator` is still
downloaded. -/
theorem UpdateRepos_mixed_trace :
    UpdateRepos mixedClient =
      (none,
        [.DownloadIndexFile { Config := stable } "/home/u/.helm/repository/cache",
          .Println "connection refused",
          .DownloadIndexFile { Config := incubator } "/home/u/.helm/repository/cache"]) :=
  rfl

/-- Claim C7, refuted as stated.  With the repositories `[stable, ftpEntry]`,
of which the library refuses `ftpEntry`, `UpdateRepos` returns an error and
attempts no download, not even that of `stable`, which is not named `local`. -/
theorem UpdateRepos_refused_entry :
    stable.Name ≠ "local" ∧
    UpdateRepos (demoClient [stable, ftpEntry] [ftpEntry] unreachable false) =
      (some (.External "Could not find protocol handler for: ftp"), []) :=
  ⟨by decide, rfl⟩

end Helm

namespace Helm

theorem UpdateRepo_of_getRepo (c : Client) (repoName : String) (r : ChartRepository)
    (h : getRepo c repoName = .ok r) :
    UpdateRepo c repoName = (none, updateRepo c r c.Home) := by
  simp [UpdateRepo, h]

/-- Claim C8, as amended.  `UpdateRepo` returns an error exactly when the name
cannot be resolved to a repository object, and then it is the error of the
resolution; when the name resolves to a repository not named `local` whose
index download fails with the message `m`, `UpdateRepo` attempts that download
once, prints `m`, and returns no error. -/
theorem UpdateRepo_result (c : Client) (repoName : String) :
    (∀ err, (UpdateRepo c repoName).1 = some err ↔ getRepo c repoName = .error err) ∧
    (∀ r m, getRepo c repoName = .ok r → r.Config.Name ≠ "local" →
      c.DownloadIndexFile r c.Home.Cache = some m →
      UpdateRepo c repoName =
        (none, [.DownloadIndexFile r c.Home.Cache, .Println m])) := by
  refine ⟨?_, ?_⟩
  · intro err
    unfold UpdateRepo
    cases getRepo c repoName with
    | error e => simp
    | ok r => simp
  · intro r m hr hname hdown
    rw [UpdateRepo_of_getRepo c repoName r hr]
    simp [updateRepo, hname, hdown]

/-- Witness of claim C8: the download of `stable` fails and `UpdateRepo`
returns no error. -/
theorem UpdateRepo_result_witness :
    UpdateRepo (demoClient [stable] [] unreachable true) "stable" =
      (none, [.DownloadIndexFile { Config := stable } "/home/u/.helm/repository/cache",
        .Println "connection refused"]) :=
  (UpdateRepo_result (demoClient [stable] [] unreachable true) "stable").2
    { Config := stable } "connection refused" rfl (by decide) rfl

/-- Claim C8, refuted as stated.  `stable` is configured and is not named
`local`, its index download fails, and `UpdateRepo` returns no error. -/
theorem UpdateRepo_swallows_failure :
    stable.Name ≠ "local" ∧
    (demoClient [localEntry, stable] [] unreachable true).DownloadIndexFile
      { Config := stable } demoHome.Cache = some "connection refused" ∧
    (UpdateRepo (demoClient [localEntry, stable] [] unreachable true) "stable").1 = none :=
  ⟨by decide, rfl, rfl⟩

/-- Claim C9, as amended.  `UpdateRepo` of the name `local` never attempts a
download and has no other effect; when the repositories file loaded and `e` is
its first entry named `local`, `UpdateRepo` returns no error exactly when the
library yields a repository object for `e`; and `UpdateRepos` attempts no
download for a repository named `local`. -/
theorem local_never_downloaded (c : Client) :
    (UpdateRepo c "local").2 = [] ∧
    (∀ f e, c.LoadRepositoriesFile = .ok f →
      f.Repositories.find? (fun x => decide (x.Name = "local")) = some e →
      ((UpdateRepo c "local").1 = none ↔ c.NewChartRepositoryErr e = none)) ∧
    (∀ r ∈ downloads (UpdateRepos c).2, r.Config.Name ≠ "local") := by
  refine ⟨?_, ?_, ?_⟩
  · cases hg : getRepo c "local" with
    | error err => simp [UpdateRepo, hg]
    | ok r =>
      rw [UpdateRepo_of_getRepo c "local" r hg]
      simp [updateRepo, getRepo_name c "local" r hg]
  · intro f e hf hfind
    have hne : f.Repositories ≠ [] := by
      intro hnil
      rw [hnil] at hfind
      simp at hfind
    have hg : getRepo c "local" = NewChartRepository c e := by
      simp [getRepo, getHelmRepos_of_loaded hf hne, getRepo_loop_find, hfind]
    unfold UpdateRepo
    rw [hg]
    unfold NewChartRepository
    cases c.NewChartRepositoryErr e with
    | some m => simp
    | none => simp
  · intro r hr
    unfold UpdateRepos at hr
    cases hg : getHelmRepos c with
    | error err => simp [hg, downloads] at hr
    | ok f =>
      simp only [hg] at hr
      cases hl : UpdateRepos.loop c f.Repositories [] with
      | error err => simp [hl, downloads] at hr
      | ok repos =>
        simp only [hl, downloads_updateRepos, List.mem_filter] at hr
        simpa using hr.2

/-- Witness of claim C9: with `local` configured among other repositories and
every download failing, `UpdateRepo` of `local` does nothing and succeeds. -/
theorem local_never_downloaded_witness :
    UpdateRepo (demoClient [stable, localEntry] [] unreachable true) "local" = (none, []) :=
  Prod.ext
    (((local_never_downloaded (demoClient [stable, localEntry] [] unreachable true)).2.1
      { Repositories := [stable, localEntry] } localEntry rfl rfl).2 rfl)
    (local_never_downloaded (demoClient [stable, localEntry] [] unreachable true)).1

/-- Claim C9, refuted as stated.  An entry named `local` is configured, the
library refuses it, and `UpdateRepo` of `local` returns an error. -/
theorem UpdateRepo_local_refused :
    localFtp.Name = "local" ∧
    UpdateRepo (demoClient [stable, localFtp] [localFtp] unreachable false) "local" =
      (some (.External "Could not find protocol handler for: ftp"), []) :=
  ⟨rfl, rfl⟩

end Helm

namespace Helm

/-! ## Index merge -/

theorem Version.le_iff (v w : Version) :
    v.le w = true ↔
      v.major < w.major ∨ (v.major = w.major ∧
        (v.minor < w.minor ∨ (v.minor = w.minor ∧ v.patch ≤ w.patch))) := by
  simp [Version.le]

theorem newerFirst_total (x y : ChartVersion) : newerFirst x y ∨ newerFirst y x := by
  unfold newerFirst
  rw [Version.le_iff, Version.le_iff]
  omega

theorem newerFirst_trans {x y z : ChartVersion} (hxy : newerFirst x y) (hyz : newerFirst y z) :
    newerFirst x z := by
  unfold newerFirst at *
  rw [Version.le_iff] at *
  omega

theorem newerFirst_isTotal : IsTotal ChartVersion newerFirst := ⟨newerFirst_total⟩

theorem newerFirst_isTrans : IsTrans ChartVersion newerFirst :=
  ⟨fun _ _ _ hxy hyz => newerFirst_trans hxy hyz⟩

/-- The result of sorting is sorted, newest version first. -/
theorem sorted_sort (l : List ChartVersion) : (l.insertionSort newerFirst).Sorted newerFirst :=
  haveI := newerFirst_isTotal
  haveI := newerFirst_isTrans
  List.sorted_insertionSort newerFirst l

/-- Sorting what is already sorted changes nothing. -/
theorem sort_sort (l : List ChartVersion) :
    (l.insertionSort newerFirst).insertionSort newerFirst = l.insertionSort newerFirst :=
  (sorted_sort l).insertionSort_eq

/-- Sorting a concatenation inserts the entries of the first list, last one
first, into the sorted second list. -/
theorem sort_append (a l : List ChartVersion) :
    (a ++ l).insertionSort newerFirst =
      a.foldr (List.orderedInsert newerFirst) (l.insertionSort newerFirst) := by
  induction a with
  | nil => rfl
  | cons x xs ih => simp [ih]

/-- Filtering commutes with the insertion of an entry into a sorted list. -/
theorem filter_orderedInsert (p : ChartVersion → Bool) (x : ChartVersion) :
    ∀ l : List ChartVersion, l.Sorted newerFirst →
      (l.orderedInsert newerFirst x).filter p =
        if p x = true then (l.filter p).orderedInsert newerFirst x else l.filter p
  | [], _ => by
    by_cases hp : p x = true <;> simp [hp]
  | y :: t, hs => by
    have ht : t.Sorted newerFirst := hs.of_cons
    have ih := filter_orderedInsert p x t ht
    by_cases hxy : newerFirst x y
    · rw [List.orderedInsert, if_pos hxy]
      by_cases hp : p x = true
      · rw [if_pos hp, List.filter_cons_of_pos hp]
        cases hf : (y :: t).filter p with
        | nil => rfl
        | cons z s =>
          have hz : z ∈ y :: t := by
            have : z ∈ (y :: t).filter p := by rw [hf]; exact List.mem_cons_self _ _
            exact (List.mem_filter.mp this).1
          have hxz : newerFirst x z := by
            rcases List.mem_cons.mp hz with h | h
            · rw [h]; exact hxy
            · exact newerFirst_trans hxy (List.rel_of_sorted_cons hs z h)
          rw [List.orderedInsert, if_pos hxz]
      · rw [if_neg hp, List.filter_cons_of_neg hp]
    · rw [List.orderedInsert, if_neg hxy]
      by_cases hy : p y = true
      · rw [List.filter_cons_of_pos hy, ih, List.filter_cons_of_pos hy]
        by_cases hp : p x = true
        · rw [if_pos hp, if_pos hp, List.orderedInsert, if_neg hxy]
        · rw [if_neg hp, if_neg hp]
      · rw [List.filter_cons_of_neg hy, ih, List.filter_cons_of_neg hy]

/-- Filtering commutes with sorting. -/
theorem filter_sort (p : ChartVersion → Bool) :
    ∀ l : List ChartVersion,
      (l.insertionSort newerFirst).filter p = (l.filter p).insertionSort newerFirst
  | [] => rfl
  | x :: t => by
    rw [List.insertionSort, filter_orderedInsert p x _ (sorted_sort t),
      filter_sort p t]
    by_cases hp : p x = true
    · rw [if_pos hp, List.filter_cons_of_pos hp, List.insertionSort]
    · rw [if_neg hp, List.filter_cons_of_neg hp]

theorem unionEntries_absorb (u b : List ChartVersion) (h : ∀ e ∈ b, e ∈ u) :
    unionEntries u b = u := by
  have hnil : b.filter (fun e => decide (e ∉ u)) = [] := by
    rw [List.filter_eq_nil_iff]
    intro e he
    simp [h e he]
  rw [unionEntries, hnil, List.append_nil]

theorem mem_unionEntries_right (a b : List ChartVersion) (e : ChartVersion) (he : e ∈ b) :
    e ∈ unionEntries a b := by
  unfold unionEntries
  by_cases ha : e ∈ a
  · exact List.mem_append_left _ ha
  · exact List.mem_append_right _ (List.mem_filter.mpr ⟨he, by simp [ha]⟩)

/-- Merging the same entries a second time adds nothing. -/
theorem unionEntries_twice (a b : List ChartVersion) :
    unionEntries (unionEntries a b) b = unionEntries a b :=
  unionEntries_absorb _ b (fun e he => mem_unionEntries_right a b e he)

/-- Merging the same entries into the sorted result of a merge, and sorting,
gives that sorted result. -/
theorem sort_union_sorted (a b : List ChartVersion) :
    (unionEntries ((unionEntries a b).insertionSort newerFirst) b).insertionSort newerFirst =
      (unionEntries a b).insertionSort newerFirst := by
  rw [unionEntries_absorb _ b, sort_sort]
  intro e he
  exact (List.mem_insertionSort newerFirst).mpr (mem_unionEntries_right a b e he)

/-- Merging the sorted result of a merge into the first index again, and
sorting, gives that sorted result. -/
theorem sort_union_into (a b : List ChartVersion) :
    (unionEntries a ((unionEntries a b).insertionSort newerFirst)).insertionSort newerFirst =
      (unionEntries a b).insertionSort newerFirst := by
  have hfa : a.filter (fun e => decide (e ∉ a)) = [] := by
    rw [List.filter_eq_nil_iff]
    intro e he
    simp [he]
  have hkeep : ((unionEntries a b).insertionSort newerFirst).filter (fun e => decide (e ∉ a)) =
      (b.filter (fun e => decide (e ∉ a))).insertionSort newerFirst := by
    rw [filter_sort, unionEntries, List.filter_append, hfa, List.nil_append, List.filter_filter]
    simp
  have hleft : unionEntries a ((unionEntries a b).insertionSort newerFirst) =
      a ++ (b.filter (fun e => decide (e ∉ a))).insertionSort newerFirst := by
    rw [← hkeep]
    rfl
  rw [hleft, sort_append, sort_sort, ← sort_append]
  rfl

theorem IndexFile.ext_entries (i j : IndexFile) (h : ∀ name, i.Entries name = j.Entries name) :
    i = j := by
  cases i
  cases j
  simp only [IndexFile.mk.injEq]
  exact funext h

theorem Merge_twice (A B : IndexFile) : (A.Merge B).Merge B = A.Merge B :=
  IndexFile.ext_entries _ _ (fun name => unionEntries_twice (A.Entries name) (B.Entries name))

theorem SortEntries_Merge_sorted (A B : IndexFile) :
    ((A.Merge B).SortEntries.Merge B).SortEntries = (A.Merge B).SortEntries :=
  IndexFile.ext_entries _ _ (fun name => sort_union_sorted (A.Entries name) (B.Entries name))

theorem SortEntries_Merge_into (A B : IndexFile) :
    (A.Merge (A.Merge B).SortEntries).SortEntries = (A.Merge B).SortEntries :=
  IndexFile.ext_entries _ _ (fun name => sort_union_into (A.Entries name) (B.Entries name))

end Helm

namespace Helm

theorem Merge_NewIndexFile (A : IndexFile) : A.Merge NewIndexFile = A :=
  IndexFile.ext_entries _ _ (fun name => by simp [IndexFile.Merge, NewIndexFile, unionEntries])

theorem index_of_mergeStep (x : Indexer) (fs fs1 : Files) (dir url mergeTo : String)
    (A I : IndexFile) (hA : x.IndexDirectory dir url = .ok A)
    (hM : index.mergeStep x fs A mergeTo = (.ok I, fs1))
    (hW : x.WriteFileErr (x.Join dir "index.yaml") = none) :
    index x fs dir url mergeTo =
      (none, fun q => if q = x.Join dir "index.yaml" then .index I.SortEntries else fs1 q) := by
  simp [index, hA, hM, WriteFile, hW]

theorem index_success (x : Indexer) (fs : Files) (dir url mergeTo : String)
    (h : (index x fs dir url mergeTo).1 = none) :
    ∃ A I fs1, x.IndexDirectory dir url = .ok A ∧
      index.mergeStep x fs A mergeTo = (.ok I, fs1) ∧
      x.WriteFileErr (x.Join dir "index.yaml") = none := by
  unfold index at h
  cases hA : x.IndexDirectory dir url with
  | error m => simp [hA] at h
  | ok A =>
    simp only [hA] at h
    rcases hM : index.mergeStep x fs A mergeTo with ⟨res, fs1⟩
    cases res with
    | error err => simp [hM] at h
    | ok I =>
      simp only [hM] at h
      cases hW : x.WriteFileErr (x.Join dir "index.yaml") with
      | some m => simp [WriteFile, hW] at h
      | none => exact ⟨A, I, fs1, rfl, hM, rfl⟩

/-- After a successful run, the merge step of a second run succeeds without
touching the file system, with an index that sorts to what the first run
wrote. -/
theorem mergeStep_again (x : Indexer) (fs fs1 : Files) (out mergeTo : String) (A I : IndexFile)
    (hM : index.mergeStep x fs A mergeTo = (.ok I, fs1)) :
    ∃ J : IndexFile,
      index.mergeStep x (fun q => if q = out then .index I.SortEntries else fs1 q) A mergeTo =
        (.ok J, fun q => if q = out then .index I.SortEntries else fs1 q) ∧
      J.SortEntries = I.SortEntries := by
  unfold index.mergeStep at hM
  by_cases hm : mergeTo = ""
  · simp only [hm, ne_eq, not_true_eq_false, if_false, Prod.mk.injEq, Except.ok.injEq] at hM
    refine ⟨A, ?_, by rw [hM.1]⟩
    simp [index.mergeStep, hm, hM.2]
  · simp only [ne_eq, hm, not_false_eq_true, if_true] at hM
    cases hfs : fs mergeTo with
    | absent =>
      simp only [hfs] at hM
      cases hW : x.WriteFileErr mergeTo with
      | some m => simp [WriteFile, hW] at hM
      | none =>
        simp only [WriteFile, hW, Prod.mk.injEq, Except.ok.injEq] at hM
        obtain ⟨hI, hfs1⟩ := hM
        by_cases hmo : mergeTo = out
        · subst hmo
          refine ⟨A.Merge I.SortEntries, ?_, ?_⟩
          · simp [index.mergeStep, hm]
          · rw [← hI, Merge_NewIndexFile]
            have := SortEntries_Merge_into A NewIndexFile
            rwa [Merge_NewIndexFile] at this
        · refine ⟨A.Merge NewIndexFile, ?_, by rw [hI]⟩
          simp [index.mergeStep, hm, hmo, ← hfs1]
    | index B =>
      simp only [hfs, Prod.mk.injEq, Except.ok.injEq] at hM
      obtain ⟨hI, hfs1⟩ := hM
      by_cases hmo : mergeTo = out
      · subst hmo
        refine ⟨A.Merge I.SortEntries, ?_, ?_⟩
        · simp [index.mergeStep, hm]
        · rw [← hI]
          exact SortEntries_Merge_into A B
      · refine ⟨A.Merge B, ?_, by rw [hI]⟩
        simp [index.mergeStep, hm, hmo, ← hfs1, hfs]
    | unreadable m => simp [hfs] at hM

/-- Running `index` a second time after a successful run succeeds and leaves
every file as the first run left it. -/
theorem index_twice (x : Indexer) (fs : Files) (dir url mergeTo : String)
    (h : (index x fs dir url mergeTo).1 = none) :
    index x (index x fs dir url mergeTo).2 dir url mergeTo =
      (none, (index x fs dir url mergeTo).2) := by
  obtain ⟨A, I, fs1, hA, hM, hW⟩ := index_success x fs dir url mergeTo h
  rw [index_of_mergeStep x fs fs1 dir url mergeTo A I hA hM hW]
  obtain ⟨J, hJ, hS⟩ := mergeStep_again x fs fs1 (x.Join dir "index.yaml") mergeTo A I hM
  rw [index_of_mergeStep x _ _ dir url mergeTo A J hA hJ hW, hS]
  refine Prod.ext rfl ?_
  funext q
  by_cases hq : q = x.Join dir "index.yaml" <;> simp [hq]

end Helm

namespace Helm

/-- Claim C10.  Merging an existing index `B` into an index `A` a second time
gives what merging it once gives, also when the entries are sorted by version
after each merge.  When `index` finds the fresh index `A`, the existing index
`B` at `mergeTo` and can write, it writes `A` merged with `B` and sorted; and a
second run of `index` after a successful one succeeds and leaves every file as
the first run left it, so it writes the same index. -/
theorem index_idempotent :
    (∀ A B : IndexFile, (A.Merge B).Merge B = A.Merge B) ∧
    (∀ A B : IndexFile,
      ((A.Merge B).SortEntries.Merge B).SortEntries = (A.Merge B).SortEntries) ∧
    (∀ (x : Indexer) (fs : Files) (dir url mergeTo : String) (A B : IndexFile),
      x.IndexDirectory dir url = .ok A → mergeTo ≠ "" → fs mergeTo = .index B →
      x.WriteFileErr (x.Join dir "index.yaml") = none →
      index x fs dir url mergeTo =
        (none, fun q =>
          if q = x.Join dir "index.yaml" then .index (A.Merge B).SortEntries else fs q)) ∧
    (∀ (x : Indexer) (fs : Files) (dir url mergeTo : String),
      (index x fs dir url mergeTo).1 = none →
      index x (index x fs dir url mergeTo).2 dir url mergeTo =
        (none, (index x fs dir url mergeTo).2)) := by
  refine ⟨Merge_twice, SortEntries_Merge_sorted, ?_, index_twice⟩
  intro x fs dir url mergeTo A B hA hm hB hW
  exact index_of_mergeStep x fs fs dir url mergeTo A (A.Merge B) hA
    (by simp [index.mergeStep, hm, hB]) hW

/-- Witness of claim C10: the index step on `freshIndex` and `existingIndex`,
run twice. -/
theorem index_idempotent_witness :
    index demoIndexer
        (index demoIndexer demoFiles "/charts" "https://charts.example.com" "/srv/index.yaml").2
        "/charts" "https://charts.example.com" "/srv/index.yaml" =
      (none,
        (index demoIndexer demoFiles "/charts" "https://charts.example.com"
          "/srv/index.yaml").2) :=
  index_idempotent.2.2.2 demoIndexer demoFiles "/charts" "https://charts.example.com"
    "/srv/index.yaml" rfl

/-- The index step on `freshIndex` and `existingIndex` lists the three
versions of `foo`, newest first. -/
theorem index_demo_entries :
    (freshIndex.Merge existingIndex).SortEntries.Entries "foo" = [foo130, foo123, foo100] := by
  decide

end Helm

namespace Helm

/-- The base names `filepath.Base` gives for a few paths. -/
theorem Base_examples :
    Base "" = "." ∧ Base "/" = "/" ∧ Base "///" = "/" ∧ Base "foo" = "foo" ∧
    Base "charts/foo" = "foo" ∧ Base "/srv/charts/foo//" = "foo" ∧ Base "." = "." := by
  decide

/-- When the repository name does not resolve, the URL helpers return the empty
URL and no error, and `UploadChart` and `RemoveChart` issue their request to
the empty URL. -/
theorem registry_calls_of_unresolved (c : Client) (repoName : String) (e : Error)
    (h : getHelmURL c repoName = .error e) :
    (∀ app version, getHelmDeleteURL c app repoName version = ("", none)) ∧
    getHelmPostURL c repoName = ("", none) ∧
    (∀ ch, (UploadChart c ch repoName).2 = [.Post "" ch]) ∧
    (∀ app version, (RemoveChart c app repoName version).2 = [.Delete ""]) := by
  have hd : ∀ app version, getHelmDeleteURL c app repoName version = ("", none) := by
    intro app version
    simp [getHelmDeleteURL, h]
  have hp : getHelmPostURL c repoName = ("", none) := by
    simp [getHelmPostURL, h]
  refine ⟨hd, hp, ?_, ?_⟩
  · intro ch
    simp only [UploadChart, hp]
    cases c.http (.Post "" ch) with
    | error m => rfl
    | ok resp =>
      dsimp only
      split <;> rfl
  · intro app version
    simp only [RemoveChart, hd]
    cases c.http (.Delete "") with
    | error m => rfl
    | ok resp =>
      dsimp only
      split <;> rfl

end Helm
